import Mathlib

/-!
Shallow embedding of the card query engine of the magpie repository
(magpie_engine: data model, filter algebra, query builder; magpie_tutor:
fuzzy matcher, query DSL lexer, parser, keyword compiler), together with
theorems settling the specification's claims against it.

Modelling conventions: machine integers (isize, usize, u16, u8) become Int
or Nat (bit-flag sets are Nat with bitwise operations; the `as usize` cast
is an explicit reduction modulo 2 ^ 64); Rust strings become Lean strings,
processed through their character lists (all inputs appearing in theorems
are ASCII, where Rust's Unicode case folding and byte lengths agree with
the per-character model); f32 similarity scores become rationals (the
scores are exact quotients of small naturals); Result and Option become
Except and Option; a reachable panic (an `unwrap` of None) becomes the
explicit outcome `PRes.panic`. Loops are modelled with an explicit fuel
parameter, instantiated generously; fuel exhaustion is a separate outcome
`PRes.nofuel` (or an empty result in the lexer), never conflated with a
panic, and does not occur on the inputs appearing in the theorems.
-/

namespace Magpie

/-- Rarity of a card (magpie_engine/src/data/cards.rs, `Rarity`). -/
inductive Rarity
  | SIDE
  | COMMON
  | UNCOMMON
  | RARE
  | UNIQUE
deriving DecidableEq

/-- Temple bit flags, u16-backed (`Temple`). -/
abbrev Temple := Nat

def Temple.BEAST : Temple := 1

def Temple.UNDEAD : Temple := 2

def Temple.TECH : Temple := 4

def Temple.MAGICK : Temple := 8

def Temple.FOOL : Temple := 16

def Temple.ARTISTRY : Temple := 32

/-- Mox colour bit flags, u16-backed (`Mox`). -/
abbrev Mox := Nat

def Mox.O : Mox := 1

def Mox.G : Mox := 2

def Mox.B : Mox := 4

def Mox.Y : Mox := 8

def Mox.R : Mox := 16

def Mox.E : Mox := 32

def Mox.P : Mox := 64

def Mox.K : Mox := 128

def Mox.P1 : Mox := 256

/-- Trait bit flags, u16-backed (`TraitsFlag`). -/
abbrev TraitsFlag := Nat

def TraitsFlag.CONDUCTIVE : TraitsFlag := 1

def TraitsFlag.BAN : TraitsFlag := 2

def TraitsFlag.TERRAIN : TraitsFlag := 4

def TraitsFlag.HARD : TraitsFlag := 8

/-- Special attacks (`SpAtk`). -/
inductive SpAtk
  | MOX
  | GREEN_MOX
  | MIRROR
  | ANT
  | BONE
  | BELL
  | CARD
deriving DecidableEq

/-- Attack variants (`Attack`): numeric, predefined special, or free text. -/
inductive Attack
  | Num (n : Int)
  | SpAtk (a : Magpie.SpAtk)
  | Str (s : String)
deriving DecidableEq

/-- Per-colour mox counts, usize fields (`MoxCount`). -/
structure MoxCount where
  o : Nat
  g : Nat
  b : Nat
  y : Nat
  r : Nat
  e : Nat
  p : Nat
  k : Nat
deriving DecidableEq

/-- Cost record with extension payload `C` (`Costs<E>`). -/
structure Costs (C : Type) where
  blood : Int
  bone : Int
  energy : Int
  mox : Mox
  mox_count : Option MoxCount
  extra : C
deriving DecidableEq

/-- Value of `Costs::default()`: zero counts, empty flags, no per-colour
counts, default extension. -/
def Costs.default {C : Type} (cdef : C) : Costs C :=
  ⟨0, 0, 0, 0, none, cdef⟩

/-- Trait record (`Traits`): optional free-text traits plus flag set. -/
structure Traits where
  strings : Option (List String)
  flags : TraitsFlag
deriving DecidableEq

/-- Value of `Traits::with_flags`: flags only, no string traits. -/
def Traits.with_flags (flags : TraitsFlag) : Traits :=
  ⟨none, flags⟩

/-- Value of `Traits::with_string`: string traits only, empty flags. -/
def Traits.with_string (traits : List String) : Traits :=
  ⟨some traits, 0⟩

/-- Set code, 3 ascii bytes (magpie_engine/src/data/sets.rs, `SetCode`). -/
structure SetCode where
  b0 : Nat
  b1 : Nat
  b2 : Nat
deriving DecidableEq

/-- Translation of `SetCode::new`, acting on the byte list of the input
string: accepts exactly 3 bytes, all ascii (`< 128`). -/
def SetCode.new (bytes : List Nat) : Option SetCode :=
  if bytes.length = 3 ∧ bytes.all (· < 128) then
    match bytes with
    | [a, b, c] => some ⟨a, b, c⟩
    | _ => none
  else
    none

/-- Card record with extension payloads `E` and `C`
(magpie_engine/src/data/cards.rs, `Card<E, C>`). -/
structure Card (E C : Type) where
  set : SetCode
  name : String
  description : String
  portrait : String
  rarity : Magpie.Rarity
  temple : Temple
  tribes : Option String
  attack : Magpie.Attack
  health : Int
  sigils : List String
  costs : Option (Magpie.Costs C)
  traits : Option Magpie.Traits
  related : List String
  extra : E

/-- Set record (magpie_engine/src/data/sets.rs, `Set<E, C>`); the sigil
description map is kept as an association list. -/
structure Set (E C : Type) where
  code : SetCode
  name : String
  cards : List (Card E C)
  sigils_description : List (String × String)

/-- Per-character lowercasing, modelling `str::to_lowercase` (they agree on
ascii input). -/
def toLowerStr (s : String) : String :=
  String.mk (s.data.map Char.toLower)

/-- Substring test, modelling `str::contains(&str)`. -/
def containsStr (hay needle : String) : Bool :=
  decide (needle.data <:+: hay.data)

/-- Five-way ordering descriptor (magpie_engine/src/query.rs,
`QueryOrder`). -/
inductive QueryOrder
  | Greater
  | GreaterEqual
  | Equal
  | LessEqual
  | Less
deriving DecidableEq

/-- Translation of the `match_query_order!` macro. -/
def matchQueryOrder (o : QueryOrder) (a b : Int) : Bool :=
  match o with
  | .Greater => a > b
  | .GreaterEqual => a ≥ b
  | .Equal => a = b
  | .LessEqual => a ≤ b
  | .Less => a < b

/-- Filter descriptors (magpie_engine/src/query.rs, `Filters<E, C, F>`).
The two hidden `Infallible` variants are uninhabited and omitted. -/
inductive Filters (E C F : Type)
  | Name (s : String)
  | Description (s : String)
  | Rarity (r : Magpie.Rarity)
  | Temple (t : Magpie.Temple)
  | Tribe (t : Option String)
  | Attack (o : QueryOrder) (n : Int)
  | Health (o : QueryOrder) (n : Int)
  | Sigil (s : String)
  | SpAtk (a : Magpie.SpAtk)
  | StrAtk (s : String)
  | Costs (c : Option (Magpie.Costs C))
  | Traits (t : Option Magpie.Traits)
  | Or (a b : Filters E C F)
  | Not (a : Filters E C F)
  | Extra (f : F)
deriving DecidableEq

/-- Translation of `Filters::to_fn`
(`impl ToFilter<E, C> for Filters<E, C, F>`); `tf` is the `ToFilter`
implementation of the extension filter type `F`. -/
def Filters.to_fn {E C F : Type} [DecidableEq C] (tf : F → Card E C → Bool) :
    Filters E C F → Card E C → Bool
  | .Name name => fun c =>
      containsStr (toLowerStr c.name) (toLowerStr name)
  | .Description desc => fun c =>
      containsStr (toLowerStr c.description) (toLowerStr desc)
  | .Rarity rarity => fun c => c.rarity = rarity
  | .Temple temple => fun c => c.temple = temple
  | .Tribe tribes => fun c =>
      match c.tribes, tribes with
      | some tr, some t => containsStr (toLowerStr tr) (toLowerStr t)
      | ct, t => ct = t
  | .Attack ord attack => fun c =>
      match c.attack with
      | .Num a => matchQueryOrder ord a attack
      | _ => false
  | .Health ord health => fun c => matchQueryOrder ord c.health health
  | .Sigil s => fun c =>
      c.sigils.any fun x => toLowerStr x = toLowerStr s
  | .SpAtk a => fun c =>
      match c.attack with
      | .SpAtk sp => sp = a
      | _ => false
  | .StrAtk s => fun c =>
      match c.attack with
      | .Str str => str = s
      | _ => false
  | .Costs cost => fun c => c.costs = cost
  | .Traits traits => fun c => c.traits = traits
  | .Or a b => fun c => a.to_fn tf c || b.to_fn tf c
  | .Not f => fun c => !(f.to_fn tf c)
  | .Extra f => tf f

/-- Query result (magpie_engine/src/query.rs, `Query`). -/
structure Query (E C F : Type) where
  cards : List (Card E C)
  filters : List (Filters E C F)

/-- Query builder state (magpie_engine/src/query.rs, `QueryBuilder`). -/
structure QueryBuilder (E C F : Type) where
  sets : List (Magpie.Set E C)
  filters : List (Filters E C F)
  funcs : List (Card E C → Bool)

/-- Translation of `QueryBuilder::with_filters`: stores the filters and
eagerly compiles each one. -/
def QueryBuilder.with_filters {E C F : Type} [DecidableEq C]
    (tf : F → Card E C → Bool) (sets : List (Magpie.Set E C))
    (filters : List (Filters E C F)) : QueryBuilder E C F :=
  ⟨sets, filters, filters.map (Filters.to_fn tf)⟩

/-- Translation of `QueryBuilder::query`: keeps the cards, drawn from the
concatenation of the sets' card sequences, on which every compiled
predicate is true. -/
def QueryBuilder.query {E C F : Type} (q : QueryBuilder E C F) :
    Query E C F :=
  ⟨(q.sets.flatMap Magpie.Set.cards).filter fun c => q.funcs.all fun f => f c,
    q.filters⟩

/-- C1: a query with filters `[f1, f2]` returns exactly the cards, in order
of the concatenation of the sets' card sequences, on which both compiled
predicates are true; its result set is the intersection of the result sets
of the single-filter queries `[f1]` and `[f2]`. -/
theorem C1_query_conjunction {E C F : Type} [DecidableEq C]
    (tf : F → Card E C → Bool) (sets : List (Magpie.Set E C))
    (f1 f2 : Filters E C F) :
    ((QueryBuilder.with_filters tf sets [f1, f2]).query).cards
      = (sets.flatMap Magpie.Set.cards).filter
          (fun c => f1.to_fn tf c && f2.to_fn tf c)
    ∧ ∀ c, c ∈ ((QueryBuilder.with_filters tf sets [f1, f2]).query).cards
        ↔ c ∈ ((QueryBuilder.with_filters tf sets [f1]).query).cards
          ∧ c ∈ ((QueryBuilder.with_filters tf sets [f2]).query).cards := by
  constructor
  · simp [QueryBuilder.query, QueryBuilder.with_filters]
  · intro c
    simp [QueryBuilder.query, QueryBuilder.with_filters, List.mem_filter]
    tauto

/-! ## Fuzzy matcher (magpie_tutor/src/fuzzy.rs) -/

/-- Inner loop of the Levenshtein row update in `lev`: walks the remaining
characters of `string1` together with the tail of the previous row,
carrying the saved top-left value (`prev_substitution_cost`) and the value
just written to the left. -/
def levInner (c2 : Char) : List Char → List Nat → Nat → Nat → List Nat
  | [], _, _, _ => []
  | _, [], _, _ => []
  | c1 :: rest, oldNext :: oldRest, prevSub, left =>
    let del := left + 1
    let ins := oldNext + 1
    let sub := if c1 = c2 then prevSub else prevSub + 1
    let v := min sub (min del ins)
    v :: levInner c2 rest oldRest oldNext v

/-- One row update of the distance array in `lev` (the body of the outer
`for (row, c2)` loop, acting on `prev_dist`). -/
def levStep (string1 : List Char) (prev : List Nat) (row : Nat)
    (c2 : Char) : List Nat :=
  match prev with
  | [] => []
  | p0 :: ptail => (row + 1) :: levInner c2 string1 ptail p0 (row + 1)

/-- Outer loop of `lev` over the characters of `string2`, with the running
row index. -/
def levRows (string1 : List Char) : List Char → List Nat → Nat → List Nat
  | [], prev, _ => prev
  | c2 :: rest, prev, row => levRows string1 rest (levStep string1 prev row c2) (row + 1)

/-- Translation of `lev`: normalized Levenshtein similarity, clamped to `0`
below the threshold. An empty `string1` short-circuits to the raw length of
`string2` (as in the source, skipping normalization and clamping). -/
def lev (string1 string2 : List Char) (threshold : ℚ) : ℚ :=
  if string1.isEmpty then
    (string2.length : ℚ)
  else
    let l1 := string1.length
    let finalRow := levRows string1 string2 (List.range (l1 + 1)) 0
    let m := max string1.length string2.length
    let t : ℚ := ((m - finalRow.getD l1 0 : ℕ) : ℚ) / (m : ℚ)
    if t ≥ threshold then t else 0

/-- Result of the fuzzy matcher (`FuzzyRes`), with owned data instead of a
reference. -/
structure FuzzyRes (T : Type) where
  rank : ℚ
  data : T
deriving DecidableEq

/-- Score of one candidate inside `fuzzy_best`: `lev` of the lowercased
candidate string against the lowercased query. -/
def fuzzyScore {T : Type} (value : String) (threshold : ℚ) (f : T → String)
    (v : T) : ℚ :=
  lev (toLowerStr (f v)).data (toLowerStr value).data threshold

/-- One step of the scan in `fuzzy_best`: keep the new candidate when its
score is `≥` the current best rank. -/
def fuzzyStep {T : Type} (value : String) (threshold : ℚ) (f : T → String)
    (best : Option (FuzzyRes T)) (v : T) : Option (FuzzyRes T) :=
  let r := fuzzyScore value threshold f v
  match best with
  | some b => if r ≥ b.rank then some ⟨r, v⟩ else some b
  | none => some ⟨r, v⟩

/-- Translation of `fuzzy_best`: fold the scan step over the candidate
list, starting from no best. -/
def fuzzy_best {T : Type} (value : String) (vec : List T) (threshold : ℚ)
    (f : T → String) : Option (FuzzyRes T) :=
  vec.foldl (fuzzyStep value threshold f) none

/-- Specification definition, written from the amended claim's words: the
maximal score in the list together with the last-encountered candidate
attaining it (an earlier candidate survives only by being strictly
greater). -/
def lastTiedMaxSpec {T : Type} (score : T → ℚ) : List T → Option (ℚ × T)
  | [] => none
  | v :: rest =>
    match lastTiedMaxSpec score rest with
    | none => some (score v, v)
    | some (m, w) => if score v > m then some (score v, v) else some (m, w)

/-- Merge of an accumulator with the optimum of a remaining list, used to
characterize the fold in `fuzzy_best`. -/
def fuzzyMerge {T : Type} (acc : Option (FuzzyRes T)) :
    Option (ℚ × T) → Option (FuzzyRes T)
  | none => acc
  | some (m, w) =>
    match acc with
    | none => some ⟨m, w⟩
    | some b => if m ≥ b.rank then some ⟨m, w⟩ else some b

theorem foldl_fuzzyStep_eq_merge {T : Type} (value : String) (threshold : ℚ)
    (f : T → String) (l : List T) :
    ∀ acc : Option (FuzzyRes T),
      l.foldl (fuzzyStep value threshold f) acc
        = fuzzyMerge acc (lastTiedMaxSpec (fuzzyScore value threshold f) l) := by
  induction l with
  | nil => intro acc; rfl
  | cons v rest ih =>
    intro acc
    rw [List.foldl_cons, ih]
    rcases hrest : lastTiedMaxSpec (fuzzyScore value threshold f) rest with
      _ | ⟨m, w⟩
    · rcases acc with _ | ⟨⟨br, bd⟩⟩ <;>
        simp [lastTiedMaxSpec, hrest, fuzzyMerge, fuzzyStep]
    · rcases acc with _ | ⟨⟨br, bd⟩⟩
      · simp only [lastTiedMaxSpec, hrest, fuzzyStep]
        by_cases h2 : fuzzyScore value threshold f v > m
        · rw [if_pos h2]
          simp only [fuzzyMerge]
          rw [if_neg (by linarith)]
        · rw [if_neg h2]
          simp only [fuzzyMerge]
          rw [if_pos (by linarith)]
      · simp only [lastTiedMaxSpec, hrest, fuzzyStep]
        by_cases h1 : fuzzyScore value threshold f v ≥ br
        · by_cases h2 : fuzzyScore value threshold f v > m
          · rw [if_pos h1, if_pos h2]
            simp only [fuzzyMerge]
            rw [if_neg (by linarith), if_pos h1]
          · rw [if_pos h1, if_neg h2]
            simp only [fuzzyMerge]
            rw [if_pos (by linarith), if_pos (by linarith)]
        · by_cases h2 : fuzzyScore value threshold f v > m
          · rw [if_neg h1, if_pos h2]
            simp only [fuzzyMerge]
            rw [if_neg (by linarith), if_neg (by linarith)]
          · rw [if_neg h1, if_neg h2]

theorem lastTiedMaxSpec_eq_none_iff {T : Type} (score : T → ℚ)
    (l : List T) : lastTiedMaxSpec score l = none ↔ l = [] := by
  cases l with
  | nil => simp [lastTiedMaxSpec]
  | cons v rest =>
    simp only [lastTiedMaxSpec]
    rcases h : lastTiedMaxSpec score rest with _ | ⟨m, w⟩ <;> simp
    split_ifs <;> simp

theorem lev_nil_right (string1 : List Char) (threshold : ℚ) :
    lev string1 [] threshold = 0 := by
  cases string1 with
  | nil => simp [lev]
  | cons c cs =>
    have hget : (List.range ((c :: cs).length + 1)).getD (c :: cs).length 0
        = (c :: cs).length := by
      simp [List.getD, List.getElem?_range]
    simp only [lev, List.isEmpty_cons, Bool.false_eq_true, if_false,
      levRows, hget]
    have : ((max (c :: cs).length ([] : List Char).length
        - (c :: cs).length : ℕ) : ℚ) = 0 := by
      simp
    rw [this, zero_div]
    split <;> rfl

/-- C2 counterexample: on the empty query string with a nonempty candidate
list, `fuzzy_best` still returns a candidate, and its score is `0` — so a
candidate with a score not strictly greater than `0` is returned, and an
empty query does not yield "no match". -/
theorem C2_counterexample :
    fuzzy_best "" ["stoat"] (1/2 : ℚ) (fun s => s) = some ⟨0, "stoat"⟩ := by
  norm_num [fuzzy_best, fuzzyStep, fuzzyScore, toLowerStr, lev, levRows,
    levStep, levInner, List.range_succ]

theorem fuzzyScore_empty_query {T : Type} (th : ℚ) (f : T → String)
    (v : T) : fuzzyScore "" th f v = 0 := by
  rw [fuzzyScore, show (toLowerStr "").data = [] from rfl, lev_nil_right]

theorem lastTiedMaxSpec_cons {T : Type} (score : T → ℚ) (v : T)
    (rest : List T) :
    lastTiedMaxSpec score (v :: rest)
      = match lastTiedMaxSpec score rest with
        | none => some (score v, v)
        | some (m, w) =>
          if score v > m then some (score v, v) else some (m, w) := rfl

theorem lastTiedMaxSpec_const_zero {T : Type} (score : T → ℚ)
    (hs : ∀ v, score v = 0) (l : List T) :
    lastTiedMaxSpec score l = l.getLast?.map fun c => (0, c) := by
  induction l with
  | nil => rfl
  | cons v rest ih =>
    rcases rest with _ | ⟨w, rest2⟩
    · simp [lastTiedMaxSpec, hs]
    · rcases h : (w :: rest2).getLast? with _ | ⟨c⟩
      · simp at h
      · rw [h] at ih
        rw [lastTiedMaxSpec_cons, ih]
        simp only [Option.map, hs v]
        rw [if_neg (by norm_num), List.getLast?_cons_cons, h]

theorem lastTiedMaxSpec_is_max {T : Type} (score : T → ℚ) (l : List T) :
    ∀ (m : ℚ) (w : T), lastTiedMaxSpec score l = some (m, w) →
      w ∈ l ∧ score w = m ∧ ∀ v ∈ l, score v ≤ m := by
  induction l with
  | nil => intro m w h; simp [lastTiedMaxSpec] at h
  | cons v rest ih =>
    intro m w h
    rcases hr : lastTiedMaxSpec score rest with _ | ⟨m2, w2⟩
    · simp only [lastTiedMaxSpec_cons, hr, Option.some.injEq,
        Prod.mk.injEq] at h
      obtain ⟨hm, hw⟩ := h
      subst hm
      subst hw
      exact ⟨List.mem_cons_self _ _, rfl, by
        intro u hu
        rcases List.mem_cons.mp hu with rfl | hu2
        · exact le_refl _
        · exact absurd ((lastTiedMaxSpec_eq_none_iff score rest).mp hr) fun
            he => (List.ne_nil_of_mem hu2) he⟩
    · simp only [lastTiedMaxSpec_cons, hr] at h
      obtain ⟨hmem, hsc, hall⟩ := ih m2 w2 hr
      by_cases hv : score v > m2
      · rw [if_pos hv] at h
        simp only [Option.some.injEq, Prod.mk.injEq] at h
        obtain ⟨hm, hw⟩ := h
        subst hm
        subst hw
        refine ⟨List.mem_cons_self _ _, rfl, ?_⟩
        intro u hu
        rcases List.mem_cons.mp hu with rfl | hu2
        · exact le_refl _
        · exact le_of_lt (lt_of_le_of_lt (hall u hu2) hv)
      · rw [if_neg hv] at h
        simp only [Option.some.injEq, Prod.mk.injEq] at h
        obtain ⟨hm, hw⟩ := h
        subst hm
        subst hw
        refine ⟨List.mem_cons_of_mem _ hmem, hsc, ?_⟩
        intro u hu
        rcases List.mem_cons.mp hu with rfl | hu2
        · exact le_of_not_lt hv
        · exact hall u hu2

/-- C2 amended: `fuzzy_best` returns the best-scoring candidate even when
that score is `0` (scores below the threshold are clamped to `0` but such a
candidate is still returned when no better exists): whenever it returns a
candidate, that candidate is in the list, carries its own score as rank,
and no candidate scores higher. An empty query over any nonempty candidate
list returns a candidate with score `0` (the last one); no match is
returned exactly when the candidate list is empty. -/
theorem C2_amended_zero_score_matches :
    (∀ (T : Type) (vec : List T) (th : ℚ) (f : T → String),
        fuzzy_best "" vec th f = vec.getLast?.map fun c => ⟨0, c⟩)
    ∧ (∀ (T : Type) (value : String) (vec : List T) (th : ℚ)
        (f : T → String) (b : FuzzyRes T),
        fuzzy_best value vec th f = some b →
          b.data ∈ vec ∧ b.rank = fuzzyScore value th f b.data
          ∧ ∀ v ∈ vec, fuzzyScore value th f v ≤ b.rank)
    ∧ ∀ (T : Type) (value : String) (vec : List T) (th : ℚ)
        (f : T → String), (fuzzy_best value vec th f).isSome ↔ vec ≠ [] := by
  refine ⟨?_, ?_, ?_⟩
  · intro T vec th f
    rw [fuzzy_best, foldl_fuzzyStep_eq_merge,
      lastTiedMaxSpec_const_zero _ (fuzzyScore_empty_query th f) vec]
    rcases h : vec.getLast? with _ | ⟨c⟩ <;> simp [fuzzyMerge]
  · intro T value vec th f b hb
    rw [fuzzy_best, foldl_fuzzyStep_eq_merge] at hb
    rcases h : lastTiedMaxSpec (fuzzyScore value th f) vec with _ | ⟨m, w⟩
    · rw [h] at hb
      simp [fuzzyMerge] at hb
    · rw [h] at hb
      simp only [fuzzyMerge, Option.some.injEq] at hb
      obtain ⟨hmem, hsc, hall⟩ := lastTiedMaxSpec_is_max _ vec m w h
      subst hb
      exact ⟨hmem, hsc.symm, hall⟩
  · intro T value vec th f
    rw [fuzzy_best, foldl_fuzzyStep_eq_merge]
    rcases h : lastTiedMaxSpec (fuzzyScore value th f) vec with _ | ⟨m, w⟩
    · rw [(lastTiedMaxSpec_eq_none_iff _ _).mp h]
      simp [fuzzyMerge]
    · have hne : vec ≠ [] := by
        intro he
        rw [he] at h
        simp [lastTiedMaxSpec] at h
      simp [fuzzyMerge, hne]

theorem C2_amended_zero_score_matches_witness :
    "stoat" ∈ ["stoat"]
    ∧ (0 : ℚ) = fuzzyScore "" (1/2 : ℚ) (fun s => s) "stoat"
    ∧ ∀ v ∈ ["stoat"], fuzzyScore "" (1/2 : ℚ) (fun s => s) v ≤ (0 : ℚ) :=
  C2_amended_zero_score_matches.2.1 String "" ["stoat"] (1/2) (fun s => s)
    ⟨0, "stoat"⟩
    (by norm_num [fuzzy_best, fuzzyStep, fuzzyScore, toLowerStr, lev,
      levRows, levStep, levInner, List.range_succ])

/-- C6 counterexample: two candidates tie with maximal score `1`, and
`fuzzy_best` returns the second (last-encountered) one, `20`, not the
first-encountered `10`. -/
theorem C6_counterexample :
    fuzzy_best "a" [10, 20] (1/2 : ℚ) (fun _ => "a") = some ⟨1, (20 : ℕ)⟩
    ∧ fuzzyScore "a" (1/2 : ℚ) (fun _ => "a") (10 : ℕ) = 1
    ∧ fuzzyScore "a" (1/2 : ℚ) (fun _ => "a") (20 : ℕ) = 1 := by
  refine ⟨?_, ?_, ?_⟩ <;>
    norm_num [fuzzy_best, fuzzyStep, fuzzyScore, toLowerStr, lev, levRows,
      levStep, levInner, List.range_succ]

/-- C6 amended: among candidates attaining the same maximal similarity
score, `fuzzy_best` returns the last-encountered one in iteration order
(the scan replaces the current best whenever the new score is `≥` it). -/
theorem C6_amended_last_tie_wins (T : Type) (value : String) (vec : List T)
    (threshold : ℚ) (f : T → String) :
    fuzzy_best value vec threshold f
      = (lastTiedMaxSpec (fuzzyScore value threshold f) vec).map
          fun p => ⟨p.1, p.2⟩ := by
  rw [fuzzy_best, foldl_fuzzyStep_eq_merge]
  rcases h : lastTiedMaxSpec (fuzzyScore value threshold f) vec with _ | ⟨m, w⟩
  · rfl
  · rfl

/-! ## Query DSL lexer (magpie_tutor/src/query/lexer.rs, QUERY_REGEX in
magpie_tutor/src/lib.rs) -/

/-- Word-class character of the regex (`\\w` or `-`), restricted to its
ascii range. -/
def isWordChar (c : Char) : Bool :=
  c.isAlphanum || c = '_'

/-- Symbol-class character of the regex: not whitespace, not a word
character, not a quote, not a hyphen. -/
def isSymChar (c : Char) : Bool :=
  !(c.isWhitespace || isWordChar c || c = '"' || c = '-')

/-- Split a character list at its last double quote: returns the part
before it and the part after it. Used to model the greedy backtracking of
the quoted-string alternative of QUERY_REGEX. -/
def splitLastQuote : List Char → Option (List Char × List Char)
  | [] => none
  | c :: rest =>
    match splitLastQuote rest with
    | some (b, a) => some (c :: b, a)
    | none => if c = '"' then some ([], rest) else none

/-- One capture of QUERY_REGEX: a quoted string literal (group 1), a word
run (group 2), or a symbol run (group 3). -/
inductive Chunk
  | str (s : List Char)
  | word (w : List Char)
  | sym (s : List Char)
deriving DecidableEq

/-- Nonempty leftmost match of QUERY_REGEX at the current position: quoted
string first, then word run, then a nonempty symbol run; `none` when only
the empty symbol run matches here. Returns the capture and the remaining
input. -/
def matchChunk : List Char → Option (Chunk × List Char)
  | [] => none
  | c :: rest =>
    if c = '"' then
      let region := rest.takeWhile fun d => d ≠ '\n'
      let tail := rest.drop region.length
      match splitLastQuote region with
      | some (content, after) =>
        if content.isEmpty then none else some (.str content, after ++ tail)
      | none => none
    else if isWordChar c || c = '-' then
      let run := (c :: rest).takeWhile fun d => isWordChar d || d = '-'
      some (.word run, (c :: rest).dropWhile fun d => isWordChar d || d = '-')
    else if isSymChar c then
      some (.sym ((c :: rest).takeWhile isSymChar),
        (c :: rest).dropWhile isSymChar)
    else
      none

/-- Match iteration of `captures_iter` over QUERY_REGEX, with the crate's
rule that an empty match starting where the previous match ended is
skipped (the search then resumes one position further). The boolean flag
records whether the current position is the end of the previous match.
Fuel bounds the number of scan steps; `lexChunks` supplies enough for the
whole input. -/
def lexGo : Nat → List Char → Bool → List Chunk
  | 0, _, _ => []
  | _ + 1, [], adj => if adj then [] else [Chunk.sym []]
  | fuel + 1, c :: rest, adj =>
    match matchChunk (c :: rest) with
    | some (ch, rest2) => ch :: lexGo fuel rest2 true
    | none =>
      if adj then lexGo fuel rest false
      else Chunk.sym [] :: lexGo fuel rest false

/-- All captures of QUERY_REGEX over the input string. -/
def lexChunks (q : String) : List Chunk :=
  lexGo (q.data.length + 1) q.data false

/-- Tokens of the query DSL (magpie_tutor/src/query/lexer.rs, `Token`). -/
inductive Token
  | Eof
  | OpenParen
  | CloseParen
  | Str (s : String)
  | Num (n : Int)
  | Name
  | Desc
  | Rarity
  | Temple
  | Tribe
  | Attack
  | Health
  | Sigil
  | SpAtk
  | Costs
  | CostType
  | Trait
  | Or
  | Not
  | Colon
  | Equal
  | Greater
  | GreaterEq
  | Less
  | LessEq
deriving DecidableEq

/-- Value of a nonempty all-digit character list. -/
def digitsVal : List Char → Option Nat
  | [] => none
  | cs =>
    if cs.all Char.isDigit then
      some (cs.foldl (fun a c => a * 10 + (c.toNat - 48)) 0)
    else
      none

/-- Translation of `str::parse::<isize>()`: optional sign, at least one
digit, nothing else, value within the 64-bit signed range. -/
def parseIsize (cs : List Char) : Option Int :=
  let sd : Int × List Char :=
    match cs with
    | '+' :: r => (1, r)
    | '-' :: r => (-1, r)
    | r => (1, r)
  match digitsVal sd.2 with
  | none => none
  | some n =>
    let v : Int := sd.1 * (n : Int)
    if -(2 ^ 63) ≤ v ∧ v ≤ 2 ^ 63 - 1 then some v else none

/-- Word-run tokenization: reserved keywords and their aliases, the `or`
operator, otherwise a number if the run parses as one, otherwise a string
literal. -/
def wordToken (w : List Char) : Token :=
  match String.mk w with
  | "name" | "n" => .Name
  | "description" | "d" => .Desc
  | "rarity" | "r" => .Rarity
  | "temple" | "tp" => .Temple
  | "tribe" | "tb" => .Tribe
  | "attack" | "a" => .Attack
  | "health" | "h" => .Health
  | "sigil" | "s" => .Sigil
  | "spatk" | "sp" => .SpAtk
  | "cost" | "c" => .Costs
  | "costtype" | "ct" => .CostType
  | "trait" | "tr" => .Trait
  | "or" => .Or
  | str =>
    match parseIsize w with
    | some n => .Num n
    | none => .Str str

/-- Single-symbol tokenization, the base case of `match_sym`. -/
def matchSymChar (c : Char) : Except String Token :=
  match c with
  | '(' => .ok .OpenParen
  | ')' => .ok .CloseParen
  | '!' => .ok Token.Not
  | ':' => .ok .Colon
  | '=' => .ok .Equal
  | '>' => .ok .Greater
  | '<' => .ok .Less
  | tk => .error ("Unrecognized token: " ++ String.mk [tk])

/-- Translation of `match_sym`: exact single symbols and the exact
two-character compounds `>=` and `<=`; any other run longer than one
character is decomposed character by character; anything else is a lexical
error. -/
def match_sym (sym : List Char) : Except String (List Token) :=
  if sym = ['('] then .ok [.OpenParen]
  else if sym = [')'] then .ok [.CloseParen]
  else if sym = ['!'] then .ok [Token.Not]
  else if sym = [':'] then .ok [.Colon]
  else if sym = ['='] then .ok [.Equal]
  else if sym = ['>'] then .ok [.Greater]
  else if sym = ['<'] then .ok [.Less]
  else if sym = ['>', '='] then .ok [.GreaterEq]
  else if sym = ['<', '='] then .ok [.LessEq]
  else if sym.length > 1 then sym.mapM matchSymChar
  else .error ("Unrecognized token: " ++ String.mk sym)

/-- Token stream of a capture list (the body of the `for` loop of
`tokenize_query`). -/
def tokenizeChunks : List Chunk → Except String (List Token)
  | [] => .ok []
  | Chunk.str s :: rest =>
    (tokenizeChunks rest).map fun ts => Token.Str (String.mk s) :: ts
  | Chunk.word w :: rest =>
    (tokenizeChunks rest).map fun ts => wordToken w :: ts
  | Chunk.sym s :: rest => do
    let ts ← match_sym s
    let rs ← tokenizeChunks rest
    return ts ++ rs

/-- Translation of `tokenize_query`: scan the captures of QUERY_REGEX,
tokenize each, and append the end-of-input token. -/
def tokenize_query (q : String) : Except String (List Token) :=
  (tokenizeChunks (lexChunks q)).map fun ts => ts ++ [Token.Eof]

/-- Decidable equality for `Except`, for evaluating concrete results. -/
instance {e a : Type} [DecidableEq e] [DecidableEq a] :
    DecidableEq (Except e a) := fun x y =>
  match x, y with
  | .ok u, .ok v =>
    if h : u = v then isTrue (by rw [h])
    else isFalse fun hh => by cases hh; exact h rfl
  | .error u, .error v =>
    if h : u = v then isTrue (by rw [h])
    else isFalse fun hh => by cases hh; exact h rfl
  | .ok _, .error _ => isFalse fun hh => by cases hh
  | .error _, .ok _ => isFalse fun hh => by cases hh

/-- C4 evaluation at the failing input: the symbol run `(<=` is decomposed
character by character into three tokens; the compound `<=` inside a
longer run is not recognized (the whole query lexes to four tokens, not to
`[OpenParen, LessEq, Eof]`). -/
theorem C4_compound_eval :
    match_sym "(<=".data = .ok [.OpenParen, .Less, .Equal]
    ∧ tokenize_query "(<=" = .ok [.OpenParen, .Less, .Equal, .Eof]
    ∧ tokenize_query "(<=" ≠ .ok [.OpenParen, .LessEq, .Eof] := by
  refine ⟨by decide, by decide, by decide⟩

/-! ## Query DSL parser (magpie_tutor/src/query/parser.rs) -/

/-- Parsed AST nodes (`Keyword`). -/
inductive Keyword
  | Name (s : String)
  | Desc (s : String)
  | Rarity (s : String)
  | Temple (s : String)
  | Tribe (s : String)
  | Attack (o : QueryOrder) (n : Int)
  | Health (o : QueryOrder) (n : Int)
  | Sigil (s : String)
  | SpAtk (s : String)
  | Costs (s : String)
  | CostType (s : String)
  | Trait (s : String)
  | Or (a b : Keyword)
  | Not (a : Keyword)
deriving DecidableEq

/-- Parse errors (`ParseErr`). -/
inductive ParseErr
  | InvalidKeyword (tk : Token)
  | ExpectToken (expect found : Token)
  | ExpectTokens (expects : List Token) (found : Token)
deriving DecidableEq

/-- Outcome of a parser step: success, a surfaced parse error, a panic (an
`unwrap` of None in `curr`/`next` or an `unreachable!`), or fuel
exhaustion of the model. -/
inductive PRes (A : Type)
  | ok (a : A)
  | err (e : ParseErr)
  | panic
  | nofuel
deriving DecidableEq

/-- Parser state: the token stack. The source reverses the token vector
and pops from its back; this is consumption from the front of the original
list, which is how the stack is modelled here (`curr` is the head, `next`
pops the head, popping an empty stack panics). -/
abbrev Stack := List Token

/-- Translation of `QueryParser::expect_token`: pop and compare. -/
def expectToken (what : Token) (s : Stack) : PRes Token × Stack :=
  match s with
  | [] => (.panic, [])
  | t :: rest =>
    if t = what then (.ok t, rest) else (.err (.ExpectToken what t), rest)

/-- Translation of the `tk_to_kw!` match: the string-keyword token mapped
to its Keyword constructor; any other token is the macro's
`unreachable!`. -/
def strKwResult (kw : Token) (val : String) (s : Stack) :
    PRes Keyword × Stack :=
  match kw with
  | .Name => (.ok (Keyword.Name val), s)
  | .Desc => (.ok (Keyword.Desc val), s)
  | .Rarity => (.ok (Keyword.Rarity val), s)
  | .Temple => (.ok (Keyword.Temple val), s)
  | .Tribe => (.ok (Keyword.Tribe val), s)
  | .Sigil => (.ok (Keyword.Sigil val), s)
  | .SpAtk => (.ok (Keyword.SpAtk val), s)
  | .Costs => (.ok (Keyword.Costs val), s)
  | .CostType => (.ok (Keyword.CostType val), s)
  | .Trait => (.ok (Keyword.Trait val), s)
  | _ => (.panic, s)

/-- Translation of `QueryParser::parse_str_keyword`. -/
def parseStrKeyword (s : Stack) : PRes Keyword × Stack :=
  match s with
  | [] => (.panic, [])
  | kw :: s1 =>
    match expectToken Token.Colon s1 with
    | (.ok _, s2) =>
      (match s2 with
       | [] => (.panic, [])
       | v :: s3 =>
         match v with
         | .Num num => strKwResult kw (toString num) s3
         | .Str str => strKwResult kw str s3
         | tk => (.err (.ExpectTokens [Token.Num 0, Token.Str ""] tk), s3))
    | (.err e, s2) => (.err e, s2)
    | (.panic, s2) => (.panic, s2)
    | (.nofuel, s2) => (.nofuel, s2)

/-- Comparator of a comparison token (the first `match` of
`parse_cmp_keyword`). -/
def cmpOf : Token → Option QueryOrder
  | .Colon | .Equal => some .Equal
  | .Greater => some .Greater
  | .GreaterEq => some .GreaterEqual
  | .Less => some .Less
  | .LessEq => some .LessEqual
  | _ => none

/-- Translation of `QueryParser::parse_cmp_keyword`. -/
def parseCmpKeyword (s : Stack) : PRes Keyword × Stack :=
  match s with
  | [] => (.panic, [])
  | kw :: s1 =>
    match s1 with
    | [] => (.panic, [])
    | c :: s2 =>
      match cmpOf c with
      | some cmp =>
        (match s2 with
         | [] => (.panic, [])
         | n :: s3 =>
           match n with
           | .Num num =>
             (match kw with
              | .Attack => (.ok (Keyword.Attack cmp num), s3)
              | .Health => (.ok (Keyword.Health cmp num), s3)
              | _ => (.panic, s3))
           | tk => (.err (.ExpectToken (Token.Num 0) tk), s3))
      | none =>
        (.err (.ExpectTokens [Token.Colon, Token.Equal, Token.Greater,
          Token.GreaterEq, Token.Less, Token.LessEq] c), s2)

/-- Bundle of the mutually recursive parse functions at one fuel level. -/
structure ParseFns : Type where
  pKeyword : Stack → PRes Keyword × Stack
  pNot : Stack → PRes Keyword × Stack
  pOrLoop : Keyword → Stack → PRes Keyword × Stack
  pOr : Stack → PRes Keyword × Stack

/-- Translation of `parse_keyword` / `parse_not` / the `parse_or` loop /
`parse_or`, by recursion on fuel: at fuel level `n + 1` the recursive
calls (through parentheses in `parse_keyword` and the next iteration of
the `or` loop) use level `n`. In `parse_keyword`'s parenthesis branch the
source stores the result of the inner `parse()` and runs
`expect_token(CloseParen)?` before returning it, even when the inner parse
failed — which is faithfully reproduced, and is where a panic is
reachable. -/
def parseFns : Nat → ParseFns
  | 0 =>
    ⟨fun s => (.nofuel, s), fun s => (.nofuel, s),
      fun _ s => (.nofuel, s), fun s => (.nofuel, s)⟩
  | fuel + 1 =>
    let P := parseFns fuel
    let pKeyword : Stack → PRes Keyword × Stack := fun s =>
      match s with
      | [] => (.panic, [])
      | t :: rest =>
        match t with
        | .Name | .Desc | .Rarity | .Temple | .Tribe | .Sigil | .SpAtk
        | .Costs | .CostType | .Trait => parseStrKeyword s
        | .Attack | .Health => parseCmpKeyword s
        | .OpenParen =>
          (match P.pOr rest with
           | (.panic, s1) => (.panic, s1)
           | (.nofuel, s1) => (.nofuel, s1)
           | (t2, s1) =>
             match expectToken Token.CloseParen s1 with
             | (.ok _, s2) => (t2, s2)
             | (.err e, s2) => (.err e, s2)
             | (.panic, s2) => (.panic, s2)
             | (.nofuel, s2) => (.nofuel, s2))
        | _ => (.err (.InvalidKeyword t), rest)
    let pNot : Stack → PRes Keyword × Stack := fun s =>
      match s with
      | [] => (.panic, [])
      | t :: rest =>
        if t = Token.Not then
          match pKeyword rest with
          | (.ok kw, s1) => (.ok (Keyword.Not kw), s1)
          | r => r
        else
          pKeyword s
    let pOrLoop : Keyword → Stack → PRes Keyword × Stack := fun left s =>
      match s with
      | [] => (.panic, [])
      | t :: rest =>
        if t = Token.Or then
          match pNot rest with
          | (.ok right, s1) => P.pOrLoop (Keyword.Or left right) s1
          | r => r
        else
          (.ok left, s)
    let pOr : Stack → PRes Keyword × Stack := fun s =>
      match pNot s with
      | (.ok left, s1) => pOrLoop left s1
      | r => r
    ⟨pKeyword, pNot, pOrLoop, pOr⟩

/-- Translation of the `gen_ast` loop: while the stack is nonempty and the
current token is not Eof, parse one expression and accumulate it. -/
def genAstGo : Nat → Stack → PRes (List Keyword) × Stack
  | 0, s => (.nofuel, s)
  | fuel + 1, s =>
    if s.isEmpty then (.ok [], s)
    else
      match s with
      | [] => (.panic, [])
      | t :: _ =>
        if t = Token.Eof then (.ok [], s)
        else
          match (parseFns (fuel + 1)).pOr s with
          | (.ok kw, s1) =>
            (match genAstGo fuel s1 with
             | (.ok kws, s2) => (.ok (kw :: kws), s2)
             | r => r)
          | (.err e, s1) => (.err e, s1)
          | (.panic, s1) => (.panic, s1)
          | (.nofuel, s1) => (.nofuel, s1)

/-- Translation of `QueryParser::gen_ast_with` / `gen_ast`, with fuel
ample for the input length. -/
def gen_ast (tokens : List Token) : PRes (List Keyword) :=
  (genAstGo (tokens.length + 1) tokens).1

/-- C8 evaluation at the failing input: on the token stream of the query
`"("` — which ends in Eof as the lexer guarantees — `gen_ast` panics:
inside the parenthesis branch the inner parse fails consuming the Eof
token, and the unconditional `expect_token(CloseParen)` then pops the
empty token stack. -/
theorem C8_paren_panic_eval :
    tokenize_query "(" = .ok [.OpenParen, .Eof]
    ∧ gen_ast [.OpenParen, .Eof] = PRes.panic := by
  exact ⟨by decide, by decide⟩

/-! ## Tutor engine extensions (magpie_tutor/src/engine.rs) and the
keyword compiler (magpie_tutor/src/query/parser.rs, TryFrom<Keyword> for
Filters; COST_REGEX in magpie_tutor/src/lib.rs) -/

/-- Cost-kind bit flags, u8-backed (`CostType` in engine.rs). -/
abbrev CostType := Nat

def CostType.BLOOD : CostType := 1

def CostType.BONE : CostType := 2

def CostType.ENERGY : CostType := 4

def CostType.MOX : CostType := 8

/-- Bit-flag containment (`bitflags` `contains`). -/
def natContains (a b : Nat) : Bool :=
  a &&& b = b

/-- Card extension of the tutor (`MagpieExt`). -/
structure MagpieExt where
  artist : String
deriving DecidableEq

/-- Cost extension of the tutor (`MagpieCosts`). -/
structure MagpieCosts where
  shattered_count : Option MoxCount
  max : Int
  link : Int
  gold : Int
deriving DecidableEq

/-- Value of `MagpieCosts::default()`. -/
def MagpieCosts.default : MagpieCosts :=
  ⟨none, 0, 0, 0⟩

/-- Extension filters of the tutor (`FilterExt`). -/
inductive FilterExt
  | Fuzzy (s : String)
  | CostType (t : Magpie.CostType)
deriving DecidableEq

/-- Translation of `impl ToFilter for FilterExt`. -/
def FilterExt.to_fn : FilterExt → Card MagpieExt MagpieCosts → Bool
  | .Fuzzy str => fun c =>
    decide (lev c.name.data str.data (1/2 : ℚ) ≠ 0) || containsStr c.name str
  | .CostType t => fun c =>
    match c.costs with
    | some cost =>
      !(natContains t CostType.BLOOD && cost.blood = 0
        || natContains t CostType.BONE && cost.bone = 0
        || natContains t CostType.ENERGY && cost.energy = 0
        || natContains t CostType.MOX && cost.mox = 0)
    | none => false

/-- Filters instantiated at the tutor's extension types (the tutor's
`Filters` type alias in lib.rs). -/
abbrev TutorFilters := Filters MagpieExt MagpieCosts FilterExt

/-- Captures of COST_REGEX `(-?\\d+)?([a-zA-Z])` over the cost shorthand:
scan left to right; at a digit or minus sign take the maximal digit run
and require a letter right after it (a shorter run would be followed by a
digit, so no backtracking arises); at a bare letter capture it with no
count. The count is the `parse::<isize>().ok()` of group 1. Fuel bounds
the scan; `compileCostsStr` supplies enough for the input. -/
def costCaptures : Nat → List Char → List (Option Int × Char)
  | 0, _ => []
  | _ + 1, [] => []
  | fuel + 1, c :: rest =>
    if c.isDigit || c = '-' then
      let ds := if c = '-' then rest else c :: rest
      let run := ds.takeWhile Char.isDigit
      let after := ds.dropWhile Char.isDigit
      match after with
      | a :: after2 =>
        if run ≠ [] ∧ a.isAlpha then
          (parseIsize (if c = '-' then '-' :: run else run), a)
            :: costCaptures fuel after2
        else
          costCaptures fuel rest
      | [] => costCaptures fuel rest
    else if c.isAlpha then
      (none, c) :: costCaptures fuel rest
    else
      costCaptures fuel rest

/-- The `as usize` cast of an isize count: reduction modulo 2 ^ 64. -/
def asUsize (i : Int) : Nat :=
  (i % (2 : Int) ^ 64).toNat

/-- One iteration of the cost-shorthand loop in the `Keyword::Costs` arm:
an omitted or unparseable count defaults to 1; `b`/`o`/`e` set
blood/bone/energy; a mox letter sets the colour bit and updates that
colour's count only when the per-colour count structure is present; any
other letter is an error. -/
def costStep (costs : Costs MagpieCosts) (p : Option Int × Char) :
    Except String (Costs MagpieCosts) :=
  let count := p.1.getD 1
  match p.2 with
  | 'b' => .ok {costs with blood := count}
  | 'o' => .ok {costs with bone := count}
  | 'e' => .ok {costs with energy := count}
  | 'r' => .ok
    { costs with
      mox := costs.mox ||| Mox.O
      mox_count := costs.mox_count.map fun m => { m with r := asUsize count } }
  | 'g' => .ok
    { costs with
      mox := costs.mox ||| Mox.G
      mox_count := costs.mox_count.map fun m => { m with g := asUsize count } }
  | 'u' => .ok
    { costs with
      mox := costs.mox ||| Mox.B
      mox_count := costs.mox_count.map fun m => { m with b := asUsize count } }
  | 'y' => .ok
    { costs with
      mox := costs.mox ||| Mox.Y
      mox_count := costs.mox_count.map fun m => { m with y := asUsize count } }
  | _ => .error "Invalid Cost"

/-- The `Keyword::Costs` compilation: fold the shorthand pairs over
`Costs::default()`. -/
def compileCostsStr (str : String) : Except String (Costs MagpieCosts) :=
  (costCaptures (str.data.length + 1) str.data).foldlM costStep
    (Costs.default MagpieCosts.default)

/-- The `Keyword::CostType` compilation: accumulate cost-kind flags,
failing on an unknown letter. -/
def costTypeVal (cs : List Char) : Except String CostType :=
  cs.foldlM
    (fun t c =>
      match c with
      | 'b' => .ok (t ||| CostType.BLOOD)
      | 'o' => .ok (t ||| CostType.BONE)
      | 'e' => .ok (t ||| CostType.ENERGY)
      | 'm' => .ok (t ||| CostType.MOX)
      | _ => .error "Invalid Cost Type")
    0

/-- Translation of `TryFrom<Keyword> for Filters`: the semantic pass from
AST nodes to filters. -/
def keywordToFilters : Keyword → Except String TutorFilters
  | .Name name => .ok (.Name name)
  | .Desc desc => .ok (.Description desc)
  | .Rarity rarity =>
    match rarity with
    | "side" | "s" => .ok (.Rarity .SIDE)
    | "common" | "c" => .ok (.Rarity .COMMON)
    | "uncommon" | "u" => .ok (.Rarity .UNCOMMON)
    | "rare" | "r" => .ok (.Rarity .RARE)
    | "unique" | "n" => .ok (.Rarity .UNIQUE)
    | _ => .error "InvalidRarity"
  | .Temple temple =>
    match temple with
    | "beast" | "b" => .ok (.Temple Temple.BEAST)
    | "undead" | "u" => .ok (.Temple Temple.UNDEAD)
    | "technology" | "tech" | "t" => .ok (.Temple Temple.TECH)
    | "magick" | "m" => .ok (.Temple Temple.MAGICK)
    | "fool" | "f" => .ok (.Temple Temple.FOOL)
    | "artistry" | "a" => .ok (.Temple Temple.ARTISTRY)
    | _ => .error "InvalidTemple"
  | .Tribe tribe => .ok (.Tribe (some tribe))
  | .Attack cmp attack => .ok (.Attack cmp attack)
  | .Health cmp health => .ok (.Health cmp health)
  | .Sigil sigil => .ok (.Sigil sigil)
  | .SpAtk spatk =>
    match spatk with
    | "mox" => .ok (.SpAtk .MOX)
    | "green" => .ok (.SpAtk .GREEN_MOX)
    | "mirror" => .ok (.SpAtk .MIRROR)
    | "ant" => .ok (.SpAtk .ANT)
    | "bone" => .ok (.SpAtk .BONE)
    | "bell" => .ok (.SpAtk .BELL)
    | "card" => .ok (.SpAtk .CARD)
    | _ => .error "InvalidSpAtk"
  | .Costs str => (compileCostsStr str).map fun c => .Costs (some c)
  | .CostType cstr =>
    (costTypeVal cstr.data).map fun t => .Extra (.CostType t)
  | .Trait t =>
    match t with
    | "conductive" =>
      .ok (.Traits (some (Traits.with_flags TraitsFlag.CONDUCTIVE)))
    | "ban" => .ok (.Traits (some (Traits.with_flags TraitsFlag.BAN)))
    | "terrain" =>
      .ok (.Traits (some (Traits.with_flags TraitsFlag.TERRAIN)))
    | "hard" => .ok (.Traits (some (Traits.with_flags TraitsFlag.HARD)))
    | _ => .ok (.Traits (some (Traits.with_string (t.splitOn ","))))
  | .Or a b => do
    let fa ← keywordToFilters a
    let fb ← keywordToFilters b
    return .Or fa fb
  | .Not a => (keywordToFilters a).map .Not

/-- Card fixture with a given attack and no traits, tribe, or costs. -/
def testCard (a : Magpie.Attack) : Card MagpieExt MagpieCosts :=
  ⟨⟨97, 97, 97⟩, "", "", "", .COMMON, 0, none, a, 0, [], none, none, [],
    ⟨""⟩⟩

/-- C3: lexing `attack>3` yields `[Attack, Greater, Num 3, Eof]`; parsing
yields `Keyword.Attack (Greater, 3)`; compiling yields
`Filters.Attack (Greater, 3)`; the compiled predicate rejects a card with
attack `Num 2`, accepts one with `Num 5`, and rejects every card whose
attack is a special or string attack. -/
theorem C3_dsl_roundtrip :
    tokenize_query "attack>3" = .ok [.Attack, .Greater, .Num 3, .Eof]
    ∧ gen_ast [.Attack, .Greater, .Num 3, .Eof]
        = .ok [Keyword.Attack .Greater 3]
    ∧ keywordToFilters (Keyword.Attack .Greater 3)
        = .ok (Filters.Attack .Greater 3)
    ∧ Filters.to_fn FilterExt.to_fn (Filters.Attack .Greater 3)
        (testCard (.Num 2)) = false
    ∧ Filters.to_fn FilterExt.to_fn (Filters.Attack .Greater 3)
        (testCard (.Num 5)) = true
    ∧ (∀ (c : Card MagpieExt MagpieCosts) (sp : SpAtk),
        c.attack = .SpAtk sp →
          Filters.to_fn FilterExt.to_fn (Filters.Attack .Greater 3) c
            = false)
    ∧ (∀ (c : Card MagpieExt MagpieCosts) (st : String),
        c.attack = .Str st →
          Filters.to_fn FilterExt.to_fn (Filters.Attack .Greater 3) c
            = false) := by
  refine ⟨by decide, by decide, by decide, by decide, by decide, ?_, ?_⟩
  · intro c sp h
    simp [Filters.to_fn, h]
  · intro c st h
    simp [Filters.to_fn, h]

theorem C3_dsl_roundtrip_witness :
    Filters.to_fn FilterExt.to_fn (Filters.Attack .Greater 3)
        (testCard (.SpAtk .MOX)) = false
    ∧ Filters.to_fn FilterExt.to_fn (Filters.Attack .Greater 3)
        (testCard (.Str "X")) = false :=
  ⟨C3_dsl_roundtrip.2.2.2.2.2.1 (testCard (.SpAtk .MOX)) .MOX rfl,
   C3_dsl_roundtrip.2.2.2.2.2.2 (testCard (.Str "X")) "X" rfl⟩

/-- C5: the cost keyword `3r2g` compiles to `Costs (some c)` with both mox
colour bits set (counts never materialize since the per-colour structure
is absent); an omitted count defaults to 1 (`b` gives blood 1); explicit
counts reach blood/bone/energy (`2o3e`); when a per-colour count structure
is present, a mox letter does update that colour's count; an unknown
letter is an error. -/
theorem C5_cost_shorthand :
    compileCostsStr "3r2g"
        = .ok ⟨0, 0, 0, Mox.O ||| Mox.G, none, MagpieCosts.default⟩
    ∧ keywordToFilters (Keyword.Costs "3r2g")
        = .ok (Filters.Costs
            (some ⟨0, 0, 0, Mox.O ||| Mox.G, none, MagpieCosts.default⟩))
    ∧ compileCostsStr "b" = .ok ⟨1, 0, 0, 0, none, MagpieCosts.default⟩
    ∧ compileCostsStr "2o3e"
        = .ok ⟨0, 2, 3, 0, none, MagpieCosts.default⟩
    ∧ costStep ⟨0, 0, 0, 0, some ⟨0, 0, 0, 0, 0, 0, 0, 0⟩,
          MagpieCosts.default⟩ (some 3, 'r')
        = .ok ⟨0, 0, 0, Mox.O, some ⟨0, 0, 0, 0, 3, 0, 0, 0⟩,
            MagpieCosts.default⟩
    ∧ costStep ⟨0, 0, 0, Mox.O, some ⟨0, 0, 0, 0, 3, 0, 0, 0⟩,
          MagpieCosts.default⟩ (some 2, 'g')
        = .ok ⟨0, 0, 0, Mox.O ||| Mox.G, some ⟨0, 2, 0, 0, 3, 0, 0, 0⟩,
            MagpieCosts.default⟩
    ∧ keywordToFilters (Keyword.Costs "3z") = .error "Invalid Cost" := by
  refine ⟨by decide, by decide, by decide, by decide, by decide, by decide,
    by decide⟩

/-- C7: lexing `!trait:hard` and parsing yields
`Keyword.Not (Keyword.Trait "hard")`; compiling yields the negation of the
exact-equality Traits filter for the hard flag; on a card whose traits
value is absent the inner filter is false and the negation true, so the
card is included. -/
theorem C7_trait_negation :
    tokenize_query "!trait:hard"
        = .ok [Token.Not, .Trait, .Colon, .Str "hard", .Eof]
    ∧ gen_ast [Token.Not, .Trait, .Colon, .Str "hard", .Eof]
        = .ok [Keyword.Not (Keyword.Trait "hard")]
    ∧ keywordToFilters (Keyword.Not (Keyword.Trait "hard"))
        = .ok (Filters.Not
            (Filters.Traits (some (Traits.with_flags TraitsFlag.HARD))))
    ∧ ∀ c : Card MagpieExt MagpieCosts, c.traits = none →
        Filters.to_fn FilterExt.to_fn
            (Filters.Traits (some (Traits.with_flags TraitsFlag.HARD))) c
          = false
        ∧ Filters.to_fn FilterExt.to_fn
            (Filters.Not
              (Filters.Traits (some (Traits.with_flags TraitsFlag.HARD))))
            c
          = true := by
  refine ⟨by decide, by decide, by decide, ?_⟩
  intro c h
  constructor
  · simp [Filters.to_fn, h]
  · simp [Filters.to_fn, h]

theorem C7_trait_negation_witness :
    Filters.to_fn FilterExt.to_fn
        (Filters.Traits (some (Traits.with_flags TraitsFlag.HARD)))
        (testCard (.Num 0)) = false
    ∧ Filters.to_fn FilterExt.to_fn
        (Filters.Not
          (Filters.Traits (some (Traits.with_flags TraitsFlag.HARD))))
        (testCard (.Num 0)) = true :=
  C7_trait_negation.2.2.2 (testCard (.Num 0)) rfl

/-- C9: `SetCode::new` succeeds exactly on byte strings of length 3 whose
bytes are all ascii. -/
theorem C9_setcode_new (bytes : List Nat) :
    (SetCode.new bytes).isSome
      ↔ bytes.length = 3 ∧ ∀ b ∈ bytes, b < 128 := by
  constructor
  · intro hs
    unfold SetCode.new at hs
    split_ifs at hs with h
    · exact ⟨h.1, by simpa [List.all_eq_true] using h.2⟩
    · simp at hs
  · rintro ⟨hl, ha⟩
    rcases bytes with _ | ⟨a, _ | ⟨b, _ | ⟨c, _ | ⟨d, t⟩⟩⟩⟩ <;>
      simp_all [SetCode.new, List.all_eq_true]

theorem C9_setcode_new_witness :
    (SetCode.new [97, 98, 99]).isSome
    ∧ ¬(SetCode.new [97, 98]).isSome
    ∧ ¬(SetCode.new [97, 98, 200]).isSome := by
  refine ⟨(C9_setcode_new [97, 98, 99]).mpr (by decide), ?_, ?_⟩
  · intro h
    have := (C9_setcode_new [97, 98]).mp h
    simp at this
  · intro h
    have := (C9_setcode_new [97, 98, 200]).mp h
    simp at this

theorem costStep_mox_count_none (cs : Costs MagpieCosts)
    (p : Option Int × Char) (c : Costs MagpieCosts)
    (h0 : cs.mox_count = none) (h : costStep cs p = .ok c) :
    c.mox_count = none := by
  unfold costStep at h
  split at h
  all_goals
    first
      | (injection h with h2
         rw [← h2]
         simp [h0])
      | simp at h

/-- C10: every successfully compiled cost keyword yields a cost value
whose per-colour count structure is absent: the fold starts from
`Costs::default()` (mox_count None) and no step ever creates the
structure, so the conditional count updates never fire and mox counts in
the shorthand are discarded. -/
theorem C10_mox_count_none (s : String) (c : Costs MagpieCosts)
    (h : compileCostsStr s = .ok c) : c.mox_count = none := by
  have aux : ∀ (ps : List (Option Int × Char)) (cs : Costs MagpieCosts),
      cs.mox_count = none → ps.foldlM costStep cs = .ok c →
        c.mox_count = none := by
    intro ps
    induction ps with
    | nil =>
      intro cs h0 hf
      simp only [List.foldlM_nil] at hf
      cases hf
      exact h0
    | cons p ps ih =>
      intro cs h0 hf
      rw [List.foldlM_cons] at hf
      rcases hstep : costStep cs p with e | cs2
      · rw [hstep] at hf
        simp [Bind.bind, Except.bind] at hf
      · rw [hstep] at hf
        exact ih cs2 (costStep_mox_count_none cs p cs2 h0 hstep) hf
  exact aux _ _ rfl h

theorem C10_mox_count_none_witness :
    (⟨0, 0, 0, Mox.O ||| Mox.G, none, MagpieCosts.default⟩ :
        Costs MagpieCosts).mox_count = none :=
  C10_mox_count_none "3r2g" _ (by decide)

end Magpie
